import Mathlib

/-!
Verification development for `scripts/generate-temporal-data.py`.

The script is embedded shallowly: every Python routine that the checked
properties mention is translated into an executable Lean definition.
Machine-level concerns are modelled explicitly:

* `subprocess.run` outcomes are values of `SubpOutcome` (a completed
  process with an exit code and captured streams, or an OS-level error
  raised while launching the process);
* Python exceptions are modelled with `Except String`: a raised and
  uncaught exception is an `Except.error`;
* Python string operations (`str.split`, `str.startswith`, slicing,
  `str.strip`, `int(...)`, `len(s.encode())`) are re-implemented on
  `List Char` so that every definition reduces inside the kernel;
* `datetime.fromtimestamp(t)` interprets `t` in the host's local time
  zone, which is modelled by an explicit offset-seconds parameter `tz`;
  `datetime.fromtimestamp(t, tz=timezone.utc)` corresponds to `tz = 0`.

Recursions that walk a cursor through a list (the blame stream loop and
the two resource-reference scanners) are written with an explicit fuel
argument so that they are structural and kernel-reducible; one unit of
fuel is spent per loop iteration and every iteration consumes at least
one element, so fuel equal to the input length is always enough, and the
wrappers supply exactly that.
-/

/-! ### Python string primitives -/

/-- Whitespace set of Python `str.split()` / `str.strip()` (ASCII part). -/
def pyIsSpace (c : Char) : Bool :=
  c == ' ' || c == '\t' || c == '\n' || c == '\r' || c == '\x0b' || c == '\x0c'

/-- Test whether the first list is an initial segment of the second. -/
def charsInit : List Char → List Char → Bool
  | [], _ => true
  | _ :: _, [] => false
  | a :: as, b :: bs => a == b && charsInit as bs

/-- Python `s.startswith(pre)`. -/
def pyStartsWith (s pre : String) : Bool := charsInit pre.data s.data

/-- Python slicing `s[n:]`. -/
def pyDrop (s : String) (n : Nat) : String := ⟨s.data.drop n⟩

/-- Worker for `pySplitWs`; `acc` holds the current token reversed. -/
def splitWsChars : List Char → List Char → List String
  | [], acc => if acc.isEmpty then [] else [⟨acc.reverse⟩]
  | c :: cs, acc =>
    if pyIsSpace c then
      (if acc.isEmpty then [] else [⟨acc.reverse⟩]) ++ splitWsChars cs []
    else splitWsChars cs (c :: acc)

/-- Python `s.split()` with no separator: split on whitespace runs and
drop empty tokens. -/
def pySplitWs (s : String) : List String := splitWsChars s.data []

/-- Worker for `pySplitChar`; `acc` holds the current field reversed. -/
def splitCharAux (sep : Char) : List Char → List Char → List String
  | [], acc => [⟨acc.reverse⟩]
  | c :: cs, acc =>
    if c == sep then ⟨acc.reverse⟩ :: splitCharAux sep cs []
    else splitCharAux sep cs (c :: acc)

/-- Python `s.split(sep)` for a one-character separator: empty fields are
kept. -/
def pySplitChar (sep : Char) (s : String) : List String := splitCharAux sep s.data []

/-- Worker for `pySplitMax`: the `Nat` argument is the remaining number of
splits; once it reaches zero the rest of the input joins the last field. -/
def splitMaxAux (sep : Char) : List Char → Nat → List Char → List String
  | [], _, acc => [⟨acc.reverse⟩]
  | c :: cs, 0, acc => [⟨acc.reverse ++ c :: cs⟩]
  | c :: cs, k + 1, acc =>
    if c == sep then ⟨acc.reverse⟩ :: splitMaxAux sep cs k []
    else splitMaxAux sep cs (k + 1) (c :: acc)

/-- Python `s.split(sep, maxsplit)` for a one-character separator. -/
def pySplitMax (sep : Char) (maxsplit : Nat) (s : String) : List String :=
  splitMaxAux sep s.data maxsplit []

/-- Decimal digit run to a number; `none` unless nonempty and all digits. -/
def digitsToNat (cs : List Char) : Option Nat :=
  if cs.isEmpty then none
  else if cs.all Char.isDigit then
    some (cs.foldl (fun n c => 10 * n + (c.toNat - 48)) 0)
  else none

/-- Python `s.strip()` with no argument. -/
def pyStrip (s : String) : String :=
  ⟨((s.data.dropWhile pyIsSpace).reverse.dropWhile pyIsSpace).reverse⟩

/-- Python `int(s)`: surrounding whitespace is allowed, then an optional
sign and a nonempty digit run.  `none` models a raised `ValueError`.
(Underscore digit grouping is not modelled; no caller input uses it.) -/
def pyInt (s : String) : Option Int :=
  match (pyStrip s).data with
  | '-' :: ds => (digitsToNat ds).map (fun n => -(n : Int))
  | '+' :: ds => (digitsToNat ds).map (fun n => (n : Int))
  | ds => (digitsToNat ds).map (fun n => (n : Int))

/-- Membership test for the two-character strip set of `strip('<>')`. -/
def isAngle (c : Char) : Bool := c == '<' || c == '>'

/-- Python `s.strip('<>')`. -/
def stripAngles (s : String) : String :=
  ⟨((s.data.dropWhile isAngle).reverse.dropWhile isAngle).reverse⟩

/-- Python `len(s.encode())`: UTF-8 byte length. -/
def pyEncodeLen (s : String) : Nat := s.data.foldl (fun n c => n + c.utf8Size) 0

/-- Python `os.path.basename` for POSIX paths: the part after the last
slash. -/
def pyBasename (s : String) : String := (pySplitChar '/' s).getLastD ""

/-- Python `os.path.dirname` for POSIX relative paths: everything before
the last slash, empty when there is none. -/
def pyDirname (s : String) : String :=
  String.intercalate "/" (pySplitChar '/' s).dropLast

/-- Python `os.path.join(a, b)` for POSIX paths. -/
def pyJoin (a b : String) : String :=
  if pyStartsWith b "/" then b
  else if a = "" then b
  else if a.data.getLastD ' ' == '/' then a ++ b
  else a ++ "/" ++ b

/-- Python `s.replace('\\', '/')`, applied to the web path. -/
def slashWebPath (s : String) : String :=
  ⟨s.data.map (fun c => if c == '\\' then '/' else c)⟩

/-! ### `datetime` modelling

`civilFromDays` is the standard civil-from-days calendar conversion;
`isoFromEpoch` renders `datetime.utcfromtimestamp`-style ISO-8601 text
(`YYYY-MM-DDTHH:MM:SS`, microseconds zero and hence omitted). -/

/-- Zero-padded two-digit decimal rendering. -/
def pad2 (n : Nat) : String := if n < 10 then "0" ++ toString n else toString n

/-- Zero-padded four-digit decimal rendering (years). -/
def pad4 (n : Nat) : String :=
  if n < 10 then "000" ++ toString n
  else if n < 100 then "00" ++ toString n
  else if n < 1000 then "0" ++ toString n
  else toString n

/-- Days since 1970-01-01 to `(year, month, day)` in the proleptic
Gregorian calendar. -/
def civilFromDays (z : Int) : Int × Nat × Nat :=
  let z' := z + 719468
  let era := Int.fdiv z' 146097
  let doe := (z' - era * 146097).toNat
  let yoe := (doe - doe / 1460 + doe / 36524 - doe / 146096) / 365
  let y : Int := (yoe : Int) + era * 400
  let doy := doe - (365 * yoe + yoe / 4 - yoe / 100)
  let mp := (5 * doy + 2) / 153
  let d := doy - (153 * mp + 2) / 5 + 1
  let m := if mp < 10 then mp + 3 else mp - 9
  (if m ≤ 2 then y + 1 else y, m, d)

/-- ISO-8601 rendering of an epoch-seconds value, without zone suffix:
what `datetime.fromtimestamp(t, tz=timezone.utc).isoformat()` would show
before its offset, or what naive `datetime.fromtimestamp` shows when the
host zone offset has already been added into `t`. -/
def isoFromEpoch (t : Int) : String :=
  let days := Int.fdiv t 86400
  let secs := (t - days * 86400).toNat
  let c := civilFromDays days
  pad4 c.1.toNat ++ "-" ++ pad2 c.2.1 ++ "-" ++ pad2 c.2.2 ++ "T" ++
    pad2 (secs / 3600) ++ ":" ++ pad2 ((secs % 3600) / 60) ++ ":" ++ pad2 (secs % 60)

/-- Modelled from the spec: "author-time (integer Unix seconds, converted
to an ISO-8601 UTC timestamp suffixed with a literal `Z`)".  This is the
specification's stated date rendering, to be compared with what the code
computes. -/
def specUtcDate (t : Int) : String := isoFromEpoch t ++ "Z"

/-! ### Command Runner (`run_git_command`) -/

/-- Outcome of one `subprocess.run` invocation: either the process ran to
completion (any exit code, captured stdout/stderr), or the attempt to
execute it raised an OS-level exception (e.g. `FileNotFoundError` when
the tool is absent). -/
inductive SubpOutcome where
  | completed (exitCode : Nat) (stdout : String) (stderr : String)
  | oserror (msg : String)
deriving DecidableEq, Repr

/-- Embedding of `run_git_command`: with `check=True` a completed process
with non-zero exit raises `CalledProcessError`, which the function
catches, logging and returning `""`; a zero exit returns the trimmed
stdout.  An OS-level launch error is not caught by the
`except subprocess.CalledProcessError` clause and propagates. -/
def run_git_command (o : SubpOutcome) : Except String String :=
  match o with
  | .completed code out _ => if code = 0 then .ok (pyStrip out) else .ok ""
  | .oserror msg => .error msg

/-- True when the process ran to completion (no launch exception). -/
def outcomeCompleted : SubpOutcome → Bool
  | .completed _ _ _ => true
  | .oserror _ => false

/-- True when the process completed with a non-zero exit code. -/
def outcomeFailed : SubpOutcome → Bool
  | .completed code _ _ => code != 0
  | .oserror _ => false

/-- Boolean success test for `Except` results. -/
def exceptIsOk : Except String α → Bool
  | .ok _ => true
  | .error _ => false

/-! ### Commit records and the Commit Log Parser -/

/-- One record of `get_click_file_commits` / `get_image_history` log
parsing (no file list). -/
structure CommitRecord where
  sha : String
  author : String
  email : String
  date : String
  message : String
deriving DecidableEq, Repr

/-- One record of `get_all_commits`, with the per-commit file list. -/
structure CommitRecordF where
  sha : String
  author : String
  email : String
  date : String
  message : String
  files : List String
deriving DecidableEq, Repr

/-- One log line to an optional record: `line.split('|', 4)` must yield
exactly five fields, and empty lines are skipped. -/
def parseLogLine (line : String) : Option CommitRecord :=
  if line = "" then none
  else
    match pySplitMax '|' 4 line with
    | [sha, author, email, date, message] =>
      some { sha := sha, author := author, email := email, date := date, message := message }
    | _ => none

/-- Embedding of `get_click_file_commits`, given the outcome of its one
`git log --follow` invocation. -/
def get_click_file_commits (logOut : SubpOutcome) : Except String (List CommitRecord) :=
  match run_git_command logOut with
  | .error err => .error err
  | .ok output =>
    if output = "" then .ok []
    else .ok ((pySplitChar '\n' output).filterMap parseLogLine)

/-- Loop body of `get_all_commits`: parse each line and, per parsed
commit, run `git diff-tree` to attach the file list. -/
def allCommitsLoop (diffTree : String → SubpOutcome) :
    List String → Except String (List CommitRecordF)
  | [] => .ok []
  | line :: rest =>
    if line = "" then allCommitsLoop diffTree rest
    else
      match pySplitMax '|' 4 line with
      | [sha, author, email, date, message] =>
        match run_git_command (diffTree sha) with
        | .error err => .error err
        | .ok filesOutput =>
          match allCommitsLoop diffTree rest with
          | .error err => .error err
          | .ok tail =>
            .ok ({ sha := sha, author := author, email := email, date := date,
                   message := message,
                   files := (pySplitChar '\n' filesOutput).filter (fun f => f ≠ "") } :: tail)
      | _ => allCommitsLoop diffTree rest

/-- Embedding of `get_all_commits`, given the outcome of `git log --all`
and an oracle for the per-commit `git diff-tree` invocations. -/
def get_all_commits (logOut : SubpOutcome) (diffTree : String → SubpOutcome) :
    Except String (List CommitRecordF) :=
  match run_git_command logOut with
  | .error err => .error err
  | .ok output =>
    if output = "" then .ok []
    else allCommitsLoop diffTree (pySplitChar '\n' output)

/-! ### Blame Stream Parser (`get_blame_history`) -/

/-- One emitted blame record (the dict appended to `blame_info`). -/
structure LineAttribution where
  lineStart : Nat
  lineEnd : Nat
  commit : String
  author : String
  email : String
  date : String
  content : String
  originalLineStart : Int
deriving DecidableEq, Repr

/-- Loop guard of the metadata scan: the line does not open with a tab. -/
def notTab (s : String) : Bool := !(pyStartsWith s "\t")

/-- Inner metadata loop of `get_blame_history`, folded over the lines
between a group header and its content line.  The accumulator carries the
`author`, `email`, `date` locals; an unparseable `author-time` value is a
raised `ValueError`.  The `tz` parameter is the host zone offset used by
naive `datetime.fromtimestamp`. -/
def extractMeta (tz : Int) : List String → String × String × String →
    Except String (String × String × String)
  | [], acc => .ok acc
  | l :: rest, (a, e, d) =>
    if pyStartsWith l "author " then extractMeta tz rest (pyDrop l 7, e, d)
    else if pyStartsWith l "author-mail " then
      extractMeta tz rest (a, stripAngles (pyDrop l 12), d)
    else if pyStartsWith l "author-time " then
      match pyInt (pyDrop l 12) with
      | some t => extractMeta tz rest (a, e, isoFromEpoch (t + tz) ++ "Z")
      | none => .error "ValueError"
    else extractMeta tz rest (a, e, d)

/-- Content step of the blame loop: when the cursor rests on a
tab-prefixed line, its payload is the content and the cursor advances;
otherwise content is left empty. -/
def takeContent : List String → String × List String
  | [] => ("", [])
  | c :: cs => if pyStartsWith c "\t" then (pyDrop c 1, cs) else ("", c :: cs)

/-- Main loop of `get_blame_history` over the split output lines, with an
output line counter starting at 1.  The fuel argument makes the recursion
structural; each iteration consumes at least one line, so fuel equal to
the number of lines is always sufficient.  In the header branch
`parts.getD 0 ""` and `parts.getD 1 ""` stand for `parts[0]` / `parts[1]`
unreachable defaults included, since the length guard ensures three
tokens.  The metadata lines are exactly the lines before the first
tab-prefixed one, so the Python cursor walk is rendered with
`takeWhile`/`dropWhile`. -/
def parseBlameFuel (tz : Int) : Nat → List String → Nat →
    Except String (List LineAttribution)
  | 0, _, _ => .ok []
  | _ + 1, [], _ => .ok []
  | fuel + 1, l :: rest, counter =>
    if l = "" then parseBlameFuel tz fuel rest counter
    else
      let parts := pySplitWs l
      if parts.length < 3 then parseBlameFuel tz fuel rest counter
      else
        match pyInt (parts.getD 1 "") with
        | none => .error "ValueError"
        | some origLine =>
          match extractMeta tz (rest.takeWhile notTab) ("", "", "") with
          | .error err => .error err
          | .ok (a, e, d) =>
            let cr := takeContent (rest.dropWhile notTab)
            match parseBlameFuel tz fuel cr.2 (counter + 1) with
            | .error err => .error err
            | .ok tail =>
              .ok ({ lineStart := counter, lineEnd := counter,
                     commit := parts.getD 0 "", author := a, email := e,
                     date := d, content := cr.1,
                     originalLineStart := origLine } :: tail)

/-- The blame stream parser on an already-split line list. -/
def parseBlameLines (tz : Int) (lines : List String) :
    Except String (List LineAttribution) :=
  parseBlameFuel tz lines.length lines 1

/-- Embedding of `get_blame_history`: missing file short-circuits to an
empty history before any command runs; empty command output also yields
an empty history. -/
def get_blame_history (tz : Int) (fileOnDisk : Bool) (blameOut : SubpOutcome) :
    Except String (List LineAttribution) :=
  if !fileOnDisk then .ok []
  else
    match run_git_command blameOut with
    | .error err => .error err
    | .ok output =>
      if output = "" then .ok []
      else parseBlameLines tz (pySplitChar '\n' output)

/-! ### Conforming blame streams (the §4.3 grammar)

A line-group is a header line, zero or more metadata lines, and one
tab-prefixed content line.  A stream conforming to the grammar is a
sequence of such groups with skippable junk (blank lines, or lines whose
whitespace token count is below three) interleaved before, between and
after the groups. -/

/-- One line-group of the blame stream, kept as raw lines. -/
structure BlameGroup where
  header : String
  meta : List String
  rawContent : String
deriving DecidableEq, Repr

/-- Grammar conformance of one group: the header splits into at least
three whitespace tokens whose second is an integer; metadata lines are
nonempty, not tab-prefixed, and any `author-time` value among them is an
integer; the content line is tab-prefixed. -/
def groupOk (g : BlameGroup) : Bool :=
  decide (3 ≤ (pySplitWs g.header).length) &&
  (pyInt ((pySplitWs g.header).getD 1 "")).isSome &&
  g.meta.all (fun m =>
    m != "" && notTab m &&
    (!(pyStartsWith m "author-time ") || (pyInt (pyDrop m 12)).isSome)) &&
  pyStartsWith g.rawContent "\t"

/-- Lines the parser may skip between groups: blank, or fewer than three
whitespace tokens. -/
def junkOk (ls : List String) : Bool :=
  ls.all (fun l => decide ((pySplitWs l).length < 3))

/-- The raw lines of one group. -/
def renderGroup (g : BlameGroup) : List String :=
  g.header :: g.meta ++ [g.rawContent]

/-- The raw lines of a group sequence, each group followed by its
trailing junk lines. -/
def renderStream : List (BlameGroup × List String) → List String
  | [] => []
  | p :: t => renderGroup p.1 ++ p.2 ++ renderStream t

/-- Metadata triple a group yields on its own (empty strings when a key
is absent; the error case is unreachable for conforming groups). -/
def expectedMeta (tz : Int) (ms : List String) : String × String × String :=
  match extractMeta tz ms ("", "", "") with
  | .ok x => x
  | .error _ => ("", "", "")

/-- The record one conforming group produces at a given counter value. -/
def expectedRecord (tz : Int) (g : BlameGroup) (counter : Nat) : LineAttribution :=
  let parts := pySplitWs g.header
  let aed := expectedMeta tz g.meta
  { lineStart := counter, lineEnd := counter, commit := parts.getD 0 "",
    author := aed.1, email := aed.2.1, date := aed.2.2,
    content := pyDrop g.rawContent 1,
    originalLineStart := (pyInt (parts.getD 1 "")).getD 0 }

/-- The records a conforming group sequence produces from a given
starting counter. -/
def expectedList (tz : Int) : Nat → List (BlameGroup × List String) → List LineAttribution
  | _, [] => []
  | c, p :: t => expectedRecord tz p.1 c :: expectedList tz (c + 1) t

/-! ### Resource Reference Extractor (`extract_image_references`) -/

/-- The excluded remote prefixes. -/
def isRemoteRef (p : String) : Bool :=
  pyStartsWith p "http://" || pyStartsWith p "https://" || pyStartsWith p "//"

/-- `images.add(path)` guarded by the remote-prefix test; the Python
set is modelled as a duplicate-free list in insertion order. -/
def addImage (images : List String) (p : String) : List String :=
  if isRemoteRef p then images
  else if images.contains p then images else images ++ [p]

/-- Try the markdown image pattern at the head of the text and return the
path capture and the remainder after the match.  The two character
classes exclude their closing delimiters, so the regex engine's greedy
scan is exactly "span to the next `]` / `)`" with no backtracking. -/
def matchMdAt : List Char → Option (String × List Char)
  | '!' :: '[' :: cs =>
    match cs.dropWhile (fun c => c != ']') with
    | ']' :: '(' :: cs2 =>
      let path := cs2.takeWhile (fun c => c != ')')
      if path.isEmpty then none
      else
        match cs2.dropWhile (fun c => c != ')') with
        | ')' :: rest => some (⟨path⟩, rest)
        | _ => none
    | _ => none
  | _ => none

/-- Try `src=` plus a quoted nonempty value at the head of the text. -/
def matchSrcAt : List Char → Option (String × List Char)
  | 's' :: 'r' :: 'c' :: '=' :: q :: cs =>
    if q == '"' || q == '\'' then
      let path := cs.takeWhile (fun c => c != '"' && c != '\'')
      if path.isEmpty then none
      else
        match cs.dropWhile (fun c => c != '"' && c != '\'') with
        | _ :: rest => some (⟨path⟩, rest)
        | [] => none
    else none
  | _ => none

/-- Greedy backtracking for the `[^>]+` part of the img-tag pattern: try
the longest candidate first, shrinking down to length one. -/
def tryGreedy (cs : List Char) : Nat → Option (String × List Char)
  | 0 => none
  | k + 1 =>
    match matchSrcAt (cs.drop (k + 1)) with
    | some r => some r
    | none => tryGreedy cs k

/-- Try the img-tag pattern at the head of the text. -/
def matchImgAt : List Char → Option (String × List Char)
  | '<' :: 'i' :: 'm' :: 'g' :: cs =>
    tryGreedy cs (cs.takeWhile (fun c => c != '>')).length
  | _ => none

/-- `re.finditer` scan for the markdown pattern: leftmost matches, each
continuing after the previous match's end, failures advancing one
character.  Fuel makes the recursion structural. -/
def mdScanFuel : Nat → List Char → List String → List String
  | 0, _, images => images
  | _ + 1, [], images => images
  | fuel + 1, c :: cs, images =>
    match matchMdAt (c :: cs) with
    | some (p, rest) => mdScanFuel fuel rest (addImage images p)
    | none => mdScanFuel fuel cs images

/-- `re.finditer` scan for the img-tag pattern. -/
def htmlScanFuel : Nat → List Char → List String → List String
  | 0, _, images => images
  | _ + 1, [], images => images
  | fuel + 1, c :: cs, images =>
    match matchImgAt (c :: cs) with
    | some (p, rest) => htmlScanFuel fuel rest (addImage images p)
    | none => htmlScanFuel fuel cs images

/-- Embedding of `extract_image_references`: the markdown pass populates
the set, then the img-tag pass adds to it. -/
def extract_image_references (markdownContent : String) : List String :=
  htmlScanFuel markdownContent.data.length markdownContent.data
    (mdScanFuel markdownContent.data.length markdownContent.data [])

/-! ### Resource History Correlator (`get_image_history`) -/

/-- One entry of an image's version history. -/
structure ResourceHistoryEntry where
  sha : String
  author : String
  email : String
  date : String
  message : String
  size : Nat
deriving DecidableEq, Repr

/-- Per-line loop of `get_image_history`: parse the log line, then run
`git show sha:path` and record the byte length of the runner's result
(zero when it is empty). -/
def imageHistLoop (showOut : String → SubpOutcome) :
    List String → Except String (List ResourceHistoryEntry)
  | [] => .ok []
  | line :: rest =>
    if line = "" then imageHistLoop showOut rest
    else
      match pySplitMax '|' 4 line with
      | [sha, author, email, date, message] =>
        match run_git_command (showOut sha) with
        | .error err => .error err
        | .ok sizeOutput =>
          match imageHistLoop showOut rest with
          | .error err => .error err
          | .ok tail =>
            .ok ({ sha := sha, author := author, email := email, date := date,
                   message := message,
                   size := if sizeOutput = "" then 0 else pyEncodeLen sizeOutput } :: tail)
      | _ => imageHistLoop showOut rest

/-- Embedding of `get_image_history`: a path absent from disk
short-circuits to an empty history before any command runs. -/
def get_image_history (fileOnDisk : Bool) (logOut : SubpOutcome)
    (showOut : String → SubpOutcome) : Except String (List ResourceHistoryEntry) :=
  if !fileOnDisk then .ok []
  else
    match run_git_command logOut with
    | .error err => .error err
    | .ok output =>
      if output = "" then .ok []
      else imageHistLoop showOut (pySplitChar '\n' output)

/-- Modelled from the spec as amended: the recorded size is the UTF-8
byte length of the Command Runner's returned text for the blob query
(which is the trimmed stdout), and 0 when that text is empty or the
query failed. -/
def sizeSpec (o : SubpOutcome) : Nat :=
  match run_git_command o with
  | .ok s => if s = "" then 0 else pyEncodeLen s
  | .error _ => 0

/-! ### Asset Materializer (`copy_images_to_assets`) -/

/-- One entry of `copied_images`. -/
structure CopiedAsset where
  source : String
  destination : String
  fullPath : String
  currentSize : Nat
  versions : List ResourceHistoryEntry
  versionCount : Nat
deriving DecidableEq, Repr

/-- Filesystem and repository oracles for the copy loop, keyed by the
raw reference (for the resolved source-file checks, the copy outcome and
`os.path.getsize`) or by the repository-relative image path (for the
history lookup).  `srcOk` is `os.path.exists and os.path.isfile` of the
normalized joined source path; `copyOk` is whether `shutil.copy2`
succeeds (its exceptions are caught by the surrounding `try`). -/
structure CopyEnv where
  srcOk : String → Bool
  copyOk : String → Bool
  curSize : String → Nat
  imgOnDisk : String → Bool
  imgLog : String → SubpOutcome
  imgShow : String → String → SubpOutcome

/-- Body of the copy loop for one reference: destination layout, the two
path-resolution regimes for the history lookup, the history query (run
before the `try`, so its exceptions are not caught), then the guarded
copy whose failure degrades to a skipped entry. -/
def copyOne (projectPath assetsDir : String) (env : CopyEnv) (imageRef : String) :
    Except String (Option CopiedAsset) :=
  if env.srcOk imageRef then
    let projectName := pyBasename projectPath
    let filename := pyBasename imageRef
    let relDir := pyDirname imageRef
    let dw :=
      if relDir ≠ "" ∧ relDir ≠ "." then
        (pyJoin (pyJoin (pyJoin assetsDir projectName) relDir) filename,
         slashWebPath (pyJoin (pyJoin projectName relDir) filename))
      else
        (pyJoin assetsDir (projectName ++ "_" ++ filename),
         projectName ++ "_" ++ filename)
    let imageGitPath :=
      if pyStartsWith projectPath "external-projects" then imageRef
      else pyJoin projectPath imageRef
    match get_image_history (env.imgOnDisk imageGitPath) (env.imgLog imageGitPath)
        (fun sha => env.imgShow sha imageGitPath) with
    | .error err => .error err
    | .ok hist =>
      if env.copyOk imageRef then
        .ok (some { source := imageRef, destination := dw.2, fullPath := dw.1,
                    currentSize := env.curSize imageRef, versions := hist,
                    versionCount := hist.length })
      else .ok none
  else .ok none

/-- The copy loop over the reference list (Python iterates the set; the
model fixes an iteration order). -/
def copyLoop (projectPath assetsDir : String) (env : CopyEnv) :
    List String → Except String (List CopiedAsset)
  | [] => .ok []
  | r :: rs =>
    match copyOne projectPath assetsDir env r with
    | .error err => .error err
    | .ok o =>
      match copyLoop projectPath assetsDir env rs with
      | .error err => .error err
      | .ok rest => .ok (match o with | some a => a :: rest | none => rest)

/-- Embedding of `copy_images_to_assets`. -/
def copy_images_to_assets (projectPath assetsDir : String) (imageRefs : List String)
    (env : CopyEnv) : Except String (List CopiedAsset) :=
  if imageRefs.isEmpty then .ok []
  else copyLoop projectPath assetsDir env imageRefs

/-! ### Per-project pipeline (`generate_temporal_data` loop body) -/

/-- The `clickFile` sub-record of one project. -/
structure ClickFileData where
  commits : List CommitRecord
  blameHistory : List LineAttribution
  currentContent : String
  images : List CopiedAsset
deriving Repr

/-- One entry of `projects_data`. -/
structure ProjectData where
  name : String
  path : String
  commits : List CommitRecordF
  clickFile : ClickFileData
deriving Repr

/-- Everything the environment supplies to one project's processing:
the outcomes of its `git` invocations, whether `click.md` is on disk,
the file's current content (the `open().read()` result), and the copy
oracles. -/
structure ProjectEnv where
  projectPath : String
  assetsDir : String
  tz : Int
  logAll : SubpOutcome
  diffTree : String → SubpOutcome
  logClick : SubpOutcome
  clickOnDisk : Bool
  blameOut : SubpOutcome
  content : String
  copyEnv : CopyEnv

/-- One iteration of the `for project_path in project_paths` loop: the
four extraction steps run in sequence with no exception handler around
them, so the first raised exception aborts the whole loop. -/
def perProject (e : ProjectEnv) : Except String ProjectData :=
  match get_all_commits e.logAll e.diffTree with
  | .error err => .error err
  | .ok allCommits =>
    match get_click_file_commits e.logClick with
    | .error err => .error err
    | .ok clickCommits =>
      match get_blame_history e.tz e.clickOnDisk e.blameOut with
      | .error err => .error err
      | .ok blameHistory =>
        let currentContent := e.content
        let imageRefs := extract_image_references currentContent
        match copy_images_to_assets e.projectPath e.assetsDir imageRefs e.copyEnv with
        | .error err => .error err
        | .ok copiedImages =>
          .ok { name := pyBasename e.projectPath, path := e.projectPath,
                commits := allCommits,
                clickFile := { commits := clickCommits, blameHistory := blameHistory,
                               currentContent := currentContent, images := copiedImages } }

/-- The project loop of `generate_temporal_data`: sequential, stopping at
the first uncaught exception. -/
def processProjects : List ProjectEnv → Except String (List ProjectData)
  | [] => .ok []
  | e :: es =>
    match perProject e with
    | .error err => .error err
    | .ok d =>
      match processProjects es with
      | .error err => .error err
      | .ok ds => .ok (d :: ds)

/-- All external-tool invocations of a project run to completion (no
OS-level launch exception), whatever their exit codes. -/
def envCompleted (e : ProjectEnv) : Prop :=
  outcomeCompleted e.logAll = true ∧
  (∀ s, outcomeCompleted (e.diffTree s) = true) ∧
  outcomeCompleted e.logClick = true ∧
  outcomeCompleted e.blameOut = true ∧
  (∀ p, outcomeCompleted (e.copyEnv.imgLog p) = true) ∧
  (∀ s p, outcomeCompleted (e.copyEnv.imgShow s p) = true)

/-- The three per-project history commands all completed with non-zero
exit codes (the Command Runner degrades each to empty output). -/
def cmdsAllFail (e : ProjectEnv) : Prop :=
  outcomeFailed e.logAll = true ∧ outcomeFailed e.logClick = true ∧
  outcomeFailed e.blameOut = true

/-! ### Concrete data used by witnesses and counterexamples -/

/-- A blame group with a full metadata block. -/
def exGroupFull : BlameGroup :=
  { header := "4f2a 1 1 2",
    meta := ["author Ann", "author-mail <ann@x.com>", "author-time 1700000000"],
    rawContent := "\tHello" }

/-- A condensed blame group carrying no metadata lines of its own. -/
def exGroupBare : BlameGroup :=
  { header := "4f2a 2 2", meta := [], rawContent := "\tWorld" }

/-- A copy environment whose single referenced file exists and copies. -/
def witCopyEnv : CopyEnv :=
  { srcOk := fun _ => true, copyOk := fun _ => true, curSize := fun _ => 3,
    imgOnDisk := fun _ => false, imgLog := fun _ => .completed 1 "" "",
    imgShow := fun _ _ => .completed 1 "" "" }

/-- A copy environment with no files on disk. -/
def emptyCopyEnv : CopyEnv :=
  { srcOk := fun _ => false, copyOk := fun _ => false, curSize := fun _ => 0,
    imgOnDisk := fun _ => false, imgLog := fun _ => .completed 1 "" "",
    imgShow := fun _ _ => .completed 1 "" "" }

/-- A project whose blame stream holds a header line with three tokens
whose second, `zz`, is not an integer: `int(parts[1])` raises
`ValueError` inside `get_blame_history`. -/
def envBad : ProjectEnv :=
  { projectPath := "projects/p1", assetsDir := "dist/assets", tz := 0,
    logAll := .completed 1 "" "", diffTree := fun _ => .completed 1 "" "",
    logClick := .completed 1 "" "", clickOnDisk := true,
    blameOut := .completed 0 "0a1b zz 1\n\thello" "",
    content := "", copyEnv := emptyCopyEnv }

/-- A healthy project: every command completes (with non-zero exit, so
all queries degrade to empty output) and the document is absent. -/
def envOk : ProjectEnv :=
  { projectPath := "projects/p2", assetsDir := "dist/assets", tz := 0,
    logAll := .completed 1 "" "", diffTree := fun _ => .completed 1 "" "",
    logClick := .completed 1 "" "", clickOnDisk := false,
    blameOut := .completed 1 "" "",
    content := "", copyEnv := emptyCopyEnv }

/-! ## Theorems -/

/-- C7, counterexample: an OS-level failure to launch the tool (for
example `FileNotFoundError` when the binary is absent) is not caught by
the `except subprocess.CalledProcessError` clause, so the Command Runner
propagates an exception to its caller instead of returning a string —
refuting "never propagates an exception" for execution failures. -/
theorem run_git_command_propagates_launch_error :
    run_git_command (.oserror "FileNotFoundError") = .error "FileNotFoundError" := rfl

/-- C7, amended: whenever the external tool itself runs to completion,
the Command Runner returns normally — the trimmed standard output on a
zero exit code, the empty string on any non-zero exit — and no exception
reaches the caller; only OS-level launch failures propagate. -/
theorem run_git_command_completed_never_raises (code : Nat) (out err : String) :
    run_git_command (.completed code out err) = .ok (if code = 0 then pyStrip out else "") := by
  by_cases h : code = 0 <;> simp [run_git_command, h]

/-- C9, confirmed: for a resource path that is not on disk the Resource
History Correlator returns an empty history and cannot fail, because the
existence check short-circuits before any command invocation. -/
theorem image_history_missing_file_empty (logOut : SubpOutcome)
    (showOut : String → SubpOutcome) :
    get_image_history false logOut showOut = .ok [] := rfl

/-- Helper: one copy-loop step only ever emits an asset whose stored
count is the length of its stored version list. -/
theorem copyOne_version_count (projectPath assetsDir : String) (env : CopyEnv)
    (imageRef : String) (a : CopiedAsset)
    (h : copyOne projectPath assetsDir env imageRef = .ok (some a)) :
    a.versionCount = a.versions.length := by
  by_cases hs : env.srcOk imageRef
  · simp only [copyOne, hs, if_true] at h
    split at h
    · cases h
    · split at h
      · simp only [Except.ok.injEq, Option.some.injEq] at h
        subst h
        rfl
      · cases h
  · simp [copyOne, hs] at h

/-- Helper: the copy loop preserves the count invariant. -/
theorem copyLoop_version_count (projectPath assetsDir : String) (env : CopyEnv) :
    ∀ refs assets, copyLoop projectPath assetsDir env refs = .ok assets →
      ∀ a ∈ assets, a.versionCount = a.versions.length := by
  intro refs
  induction refs with
  | nil =>
    intro assets h a ha
    rw [copyLoop] at h
    cases h
    simp at ha
  | cons r rs ih =>
    intro assets h a ha
    rw [copyLoop] at h
    cases h1 : copyOne projectPath assetsDir env r with
    | error err => rw [h1] at h; cases h
    | ok o =>
      rw [h1] at h
      cases h2 : copyLoop projectPath assetsDir env rs with
      | error err => rw [h2] at h; cases h
      | ok rest =>
        rw [h2] at h
        simp only [Except.ok.injEq] at h
        subst h
        cases o with
        | none => exact ih rest h2 a ha
        | some b =>
          rcases List.mem_cons.1 ha with hb | hrest
          · subst hb
            exact copyOne_version_count projectPath assetsDir env r a h1
          · exact ih rest h2 a hrest

/-- C10, confirmed: every CopiedAsset record the Asset Materializer
produces satisfies `versionCount = versions.length` — the code stores
`len(image_history)` next to `image_history` itself. -/
theorem copied_asset_version_count (projectPath assetsDir : String)
    (imageRefs : List String) (env : CopyEnv) (assets : List CopiedAsset)
    (h : copy_images_to_assets projectPath assetsDir imageRefs env = .ok assets) :
    ∀ a ∈ assets, a.versionCount = a.versions.length := by
  unfold copy_images_to_assets at h
  split at h
  · cases h
    intro a ha
    simp at ha
  · exact copyLoop_version_count projectPath assetsDir env imageRefs assets h

/-- C10, witness: the invariant instantiated on one concretely copied
asset. -/
theorem copied_asset_version_count_witness :
    (⟨"a.png", "p1_a.png", "dist/assets/p1_a.png", 3, [], 0⟩ : CopiedAsset).versionCount =
      (⟨"a.png", "p1_a.png", "dist/assets/p1_a.png", 3, [], 0⟩ : CopiedAsset).versions.length :=
  copied_asset_version_count "projects/p1" "dist/assets" ["a.png"] witCopyEnv
    [⟨"a.png", "p1_a.png", "dist/assets/p1_a.png", 3, [], 0⟩] rfl
    ⟨"a.png", "p1_a.png", "dist/assets/p1_a.png", 3, [], 0⟩ (by decide)

/-- C6, counterexample: a blob whose content is `"hello\n"` has byte
length 6, but the recorded size is 5: the Command Runner trims the
captured stdout before the byte length is taken, so the recorded size is
not the byte length of the blob content. -/
theorem image_size_not_blob_length :
    get_image_history true (.completed 0 "0a1b|Ann|ann@x.com|2020-01-02|add" "")
        (fun _ => .completed 0 "hello\n" "") =
      .ok [⟨"0a1b", "Ann", "ann@x.com", "2020-01-02", "add", 5⟩] ∧
    pyEncodeLen "hello\n" = 6 := ⟨rfl, rfl⟩

/-- Helper: every entry the history loop emits records the byte length
of the runner's (trimmed) result for its own sha, zero when empty. -/
theorem imageHistLoop_sizes (showOut : String → SubpOutcome) :
    ∀ lines hist, imageHistLoop showOut lines = .ok hist →
      ∀ en ∈ hist, en.size = sizeSpec (showOut en.sha) := by
  intro lines
  induction lines with
  | nil =>
    intro hist h en hen
    rw [imageHistLoop] at h
    simp only [Except.ok.injEq] at h
    subst h
    simp at hen
  | cons line rest ih =>
    intro hist h en hen
    rw [imageHistLoop] at h
    by_cases hl : line = ""
    · rw [if_pos hl] at h
      exact ih hist h en hen
    · rw [if_neg hl] at h
      split at h
      next f1 f2 f3 f4 f5 hsp =>
        split at h
        next err hrun => cases h
        next sizeOutput hrun =>
          split at h
          next err htail => cases h
          next tail htail =>
            simp only [Except.ok.injEq] at h
            subst h
            rcases List.mem_cons.1 hen with hhd | htl
            · subst hhd
              simp only [sizeSpec, hrun]
            · exact ih tail htail en htl
      next hno => exact ih hist h en hen

/-- C6, amended: for every emitted ResourceHistoryEntry the recorded
size equals the UTF-8 byte length of the Command Runner's returned
(trimmed) text for that entry's blob query, and 0 when that text is
empty or retrieval fails. -/
theorem image_size_matches_runner (fileOnDisk : Bool) (logOut : SubpOutcome)
    (showOut : String → SubpOutcome) (hist : List ResourceHistoryEntry)
    (h : get_image_history fileOnDisk logOut showOut = .ok hist) :
    ∀ en ∈ hist, en.size = sizeSpec (showOut en.sha) := by
  unfold get_image_history at h
  split at h
  · simp only [Except.ok.injEq] at h
    subst h
    intro en hen
    simp at hen
  · split at h
    · cases h
    · split at h
      · simp only [Except.ok.injEq] at h
        subst h
        intro en hen
        simp at hen
      · exact imageHistLoop_sizes showOut _ hist h

/-- C6, witness: the amended size law instantiated on a concrete
history whose blob query returns `" x \n"` (trimmed to one byte). -/
theorem image_size_matches_runner_witness :
    (⟨"0a1b", "Ann", "ann@x.com", "2020-01-02", "add", 1⟩ : ResourceHistoryEntry).size =
      sizeSpec ((fun _ => SubpOutcome.completed 0 " x \n" "") "0a1b") :=
  image_size_matches_runner true (.completed 0 "0a1b|Ann|ann@x.com|2020-01-02|add" "")
    (fun _ => .completed 0 " x \n" "")
    [⟨"0a1b", "Ann", "ann@x.com", "2020-01-02", "add", 1⟩] rfl
    ⟨"0a1b", "Ann", "ann@x.com", "2020-01-02", "add", 1⟩ (by decide)

/-- Helper: once the split budget is exhausted, the rest of the input is
one field, separators included. -/
theorem splitMaxAux_zero (sep : Char) (m acc : List Char) :
    splitMaxAux sep m 0 acc = [⟨acc.reverse ++ m⟩] := by
  cases m with
  | nil => simp [splitMaxAux]
  | cons c cs => rfl

/-- Helper: with budget left, a separator-free block followed by a
separator yields one field and the split continues after it. -/
theorem splitMaxAux_step (sep : Char) (xs rest acc : List Char) (k : Nat)
    (hx : sep ∉ xs) :
    splitMaxAux sep (xs ++ sep :: rest) (k + 1) acc =
      ⟨acc.reverse ++ xs⟩ :: splitMaxAux sep rest k [] := by
  induction xs generalizing acc with
  | nil => simp [splitMaxAux]
  | cons x xs ih =>
    have hxs : sep ∉ xs := fun hh => hx (List.mem_cons_of_mem _ hh)
    have hxne : ¬((x == sep) = true) := by
      simp only [beq_iff_eq]
      intro he
      exact hx (by rw [he]; exact List.mem_cons_self _ _)
    show splitMaxAux sep (x :: (xs ++ sep :: rest)) (k + 1) acc =
      ⟨acc.reverse ++ x :: xs⟩ :: splitMaxAux sep rest k []
    rw [splitMaxAux, if_neg hxne, ih (x :: acc) hxs]
    congr 2
    simp

/-- Helper: `split('|', 4)` of five fields whose first four are free of
the delimiter recovers exactly those fields, delimiters inside the fifth
preserved. -/
theorem pySplitMax_five (line : String) (s a e d m : List Char)
    (hline : line.data = s ++ '|' :: (a ++ '|' :: (e ++ '|' :: (d ++ '|' :: m))))
    (hs : '|' ∉ s) (ha : '|' ∉ a) (he : '|' ∉ e) (hd : '|' ∉ d) :
    pySplitMax '|' 4 line = [⟨s⟩, ⟨a⟩, ⟨e⟩, ⟨d⟩, ⟨m⟩] := by
  unfold pySplitMax
  rw [hline]
  rw [splitMaxAux_step '|' s _ [] 3 hs]
  rw [splitMaxAux_step '|' a _ [] 2 ha]
  rw [splitMaxAux_step '|' e _ [] 1 he]
  rw [splitMaxAux_step '|' d _ [] 0 hd]
  rw [splitMaxAux_zero]
  simp

/-- Helper: a nonempty line whose bounded split does not have exactly
five fields parses to no record. -/
theorem parseLogLine_skip (line : String) (hne : line ≠ "")
    (h5 : (pySplitMax '|' 4 line).length ≠ 5) :
    parseLogLine line = none := by
  unfold parseLogLine
  rw [if_neg hne]
  rcases hsp : pySplitMax '|' 4 line with
      _ | ⟨f1, _ | ⟨f2, _ | ⟨f3, _ | ⟨f4, _ | ⟨f5, _ | ⟨f6, t⟩⟩⟩⟩⟩⟩ <;>
    try rfl
  exact absurd (by rw [hsp]; rfl) h5

/-- C4, confirmed: the Commit Log Parser caps each line's split at four
delimiters, so a message holding a literal delimiter survives verbatim;
an empty line or one with a field count other than five is skipped
(parses to no record); and on empty command output both log readers
return an empty sequence without error. -/
theorem commit_log_parser_correct :
    (∀ diffTree, get_all_commits (.completed 0 "" "") diffTree = .ok [] ∧
       get_click_file_commits (.completed 0 "" "") = .ok []) ∧
    (∀ s a e d m : String, '|' ∉ s.data → '|' ∉ a.data → '|' ∉ e.data → '|' ∉ d.data →
       parseLogLine ⟨s.data ++ '|' :: (a.data ++ '|' :: (e.data ++ '|' :: (d.data ++ '|' :: m.data)))⟩ =
         some ⟨s, a, e, d, m⟩) ∧
    (∀ line : String, line = "" ∨ (pySplitMax '|' 4 line).length ≠ 5 →
       parseLogLine line = none) := by
  refine ⟨fun diffTree => ⟨rfl, rfl⟩, ?_, ?_⟩
  · intro s a e d m hs ha he hd
    have hne : (⟨s.data ++ '|' :: (a.data ++ '|' :: (e.data ++ '|' :: (d.data ++ '|' :: m.data)))⟩ :
        String) ≠ "" := by
      intro hcon
      have := congrArg String.data hcon
      simp at this
    unfold parseLogLine
    rw [if_neg hne,
      pySplitMax_five
        ⟨s.data ++ '|' :: (a.data ++ '|' :: (e.data ++ '|' :: (d.data ++ '|' :: m.data)))⟩
        s.data a.data e.data d.data m.data rfl hs ha he hd]
  · intro line hline
    rcases hline with hempty | h5
    · subst hempty
      rfl
    · by_cases hne : line = ""
      · subst hne; rfl
      · exact parseLogLine_skip line hne h5

/-- C4, witness: a concrete line whose message holds a literal `|`
parses with the message intact, and concrete first-four fields are
delimiter-free. -/
theorem commit_log_parser_correct_witness :
    parseLogLine ⟨"4f2a".data ++ '|' :: ("Ann".data ++ '|' :: ("ann@x.com".data ++
        '|' :: ("2024-01-01T00:00:00+00:00".data ++ '|' :: "fix a|b".data)))⟩ =
      some ⟨"4f2a", "Ann", "ann@x.com", "2024-01-01T00:00:00+00:00", "fix a|b"⟩ :=
  commit_log_parser_correct.2.1 "4f2a" "Ann" "ann@x.com" "2024-01-01T00:00:00+00:00" "fix a|b"
    (by decide) (by decide) (by decide) (by decide)

/-- Helper: `takeWhile` stops exactly at the first failing element. -/
theorem takeWhile_block (p : String → Bool) (ms : List String) (r : String)
    (rest : List String) (hms : ∀ m ∈ ms, p m = true) (hr : p r = false) :
    (ms ++ r :: rest).takeWhile p = ms := by
  induction ms with
  | nil => simp [List.takeWhile_cons, hr]
  | cons m ms ih =>
    have hm : p m = true := hms m (List.mem_cons_self _ _)
    simp only [List.cons_append, List.takeWhile_cons, hm, if_true]
    rw [ih (fun x hx => hms x (List.mem_cons_of_mem _ hx))]

/-- Helper: `dropWhile` resumes exactly at the first failing element. -/
theorem dropWhile_block (p : String → Bool) (ms : List String) (r : String)
    (rest : List String) (hms : ∀ m ∈ ms, p m = true) (hr : p r = false) :
    (ms ++ r :: rest).dropWhile p = r :: rest := by
  induction ms with
  | nil => simp [List.dropWhile_cons, hr]
  | cons m ms ih =>
    have hm : p m = true := hms m (List.mem_cons_self _ _)
    simp only [List.cons_append, List.dropWhile_cons, hm, if_true]
    exact ih (fun x hx => hms x (List.mem_cons_of_mem _ hx))

/-- Helper: the metadata fold returns normally when every `author-time`
value among the lines parses as an integer. -/
theorem extractMeta_ok (tz : Int) :
    ∀ ms a e d,
      (∀ m ∈ ms, pyStartsWith m "author-time " = true →
        (pyInt (pyDrop m 12)).isSome = true) →
      ∃ x, extractMeta tz ms (a, e, d) = .ok x := by
  intro ms
  induction ms with
  | nil => intro a e d _; exact ⟨(a, e, d), rfl⟩
  | cons m ms ih =>
    intro a e d hsafe
    have hms := fun x hx => hsafe x (List.mem_cons_of_mem m hx)
    rw [extractMeta]
    by_cases h1 : pyStartsWith m "author " = true
    · rw [if_pos h1]; exact ih _ _ _ hms
    · rw [if_neg h1]
      by_cases h2 : pyStartsWith m "author-mail " = true
      · rw [if_pos h2]; exact ih _ _ _ hms
      · rw [if_neg h2]
        by_cases h3 : pyStartsWith m "author-time " = true
        · rw [if_pos h3]
          obtain ⟨t, ht⟩ := Option.isSome_iff_exists.1 (hsafe m (List.mem_cons_self _ _) h3)
          simp only [ht]
          exact ih _ _ _ hms
        · rw [if_neg h3]; exact ih _ _ _ hms

/-- Helper: a metadata block with none of the three recognised keys
leaves the accumulator untouched. -/
theorem extractMeta_keyless (tz : Int) :
    ∀ ms a e d,
      (∀ m ∈ ms, pyStartsWith m "author " = false ∧
        pyStartsWith m "author-mail " = false ∧ pyStartsWith m "author-time " = false) →
      extractMeta tz ms (a, e, d) = .ok (a, e, d) := by
  intro ms
  induction ms with
  | nil => intro a e d _; rfl
  | cons m ms ih =>
    intro a e d hkeys
    obtain ⟨h1, h2, h3⟩ := hkeys m (List.mem_cons_self _ _)
    rw [extractMeta]
    simp only [h1, h2, h3, Bool.false_eq_true, if_false]
    exact ih a e d (fun x hx => hkeys x (List.mem_cons_of_mem m hx))

/-- Helper: the four conjuncts of one group's conformance test. -/
theorem groupOk_parts (g : BlameGroup) (h : groupOk g = true) :
    3 ≤ (pySplitWs g.header).length ∧
    (pyInt ((pySplitWs g.header).getD 1 "")).isSome = true ∧
    (∀ m ∈ g.meta, m ≠ "" ∧ notTab m = true ∧
      (pyStartsWith m "author-time " = true → (pyInt (pyDrop m 12)).isSome = true)) ∧
    pyStartsWith g.rawContent "\t" = true := by
  simp only [groupOk, Bool.and_eq_true, decide_eq_true_eq, List.all_eq_true] at h
  obtain ⟨⟨⟨h1, h2⟩, h3⟩, h4⟩ := h
  refine ⟨h1, h2, ?_, h4⟩
  intro m hm
  have hb := h3 m hm
  simp only [Bool.and_eq_true, bne_iff_ne, Bool.or_eq_true, Bool.not_eq_true'] at hb
  obtain ⟨⟨hm1, hm2⟩, hm3⟩ := hb
  refine ⟨hm1, hm2, fun ht => ?_⟩
  rcases hm3 with hfalse | hsome
  · rw [ht] at hfalse; cases hfalse
  · exact hsome

/-- Helper: `junkOk` pointwise. -/
theorem junkOk_parts (ls : List String) (h : junkOk ls = true) :
    ∀ l ∈ ls, (pySplitWs l).length < 3 := by
  simp only [junkOk, List.all_eq_true, decide_eq_true_eq] at h
  exact h

/-- Helper: the parser on a stream of conforming groups with junk
between them emits exactly the expected records, one per group, counting
from the given start value; any fuel at least the stream length works. -/
theorem parseBlame_render (tz : Int) :
    ∀ fuel pre gs c, junkOk pre = true →
      (∀ p ∈ gs, groupOk p.1 = true ∧ junkOk p.2 = true) →
      (pre ++ renderStream gs).length ≤ fuel →
      parseBlameFuel tz fuel (pre ++ renderStream gs) c = .ok (expectedList tz c gs) := by
  intro fuel
  induction fuel with
  | zero =>
    intro pre gs c hpre hgs hlen
    rw [Nat.le_zero, List.length_append, Nat.add_eq_zero] at hlen
    obtain ⟨hp0, hr0⟩ := hlen
    rw [List.length_eq_zero] at hp0 hr0
    subst hp0
    cases gs with
    | nil => rfl
    | cons p t => simp [renderStream, renderGroup] at hr0
  | succ fuel ih =>
    intro pre gs c hpre hgs hlen
    cases pre with
    | cons j pre' =>
      have hjunk : (pySplitWs j).length < 3 ∧ junkOk pre' = true := by
        simp only [junkOk, List.all_cons, Bool.and_eq_true, decide_eq_true_eq] at hpre
        exact ⟨hpre.1, by simp only [junkOk]; exact hpre.2⟩
      have hlen' : (pre' ++ renderStream gs).length ≤ fuel := by
        simp only [List.cons_append, List.length_cons] at hlen
        omega
      rw [List.cons_append, parseBlameFuel]
      by_cases hj : j = ""
      · rw [if_pos hj]
        exact ih pre' gs c hjunk.2 hgs hlen'
      · rw [if_neg hj]
        simp only [if_pos hjunk.1]
        exact ih pre' gs c hjunk.2 hgs hlen'
    | nil =>
      cases gs with
      | nil => rfl
      | cons p t =>
        obtain ⟨g, junk⟩ := p
        have hgj := hgs (g, junk) (List.mem_cons_self _ _)
        obtain ⟨hg3, hgi, hgm, hgtab⟩ := groupOk_parts g hgj.1
        have ht := fun q hq => hgs q (List.mem_cons_of_mem _ hq)
        have hne : g.header ≠ "" := by
          intro hh
          rw [hh] at hg3
          exact absurd hg3 (by decide)
        have hmetaTab : ∀ m ∈ g.meta, notTab m = true := fun m hm => (hgm m hm).2.1
        have hrawTab : notTab g.rawContent = false := by
          simp [notTab, hgtab]
        have hsafe : ∀ m ∈ g.meta, pyStartsWith m "author-time " = true →
            (pyInt (pyDrop m 12)).isSome = true := fun m hm => (hgm m hm).2.2
        simp only [List.nil_append, renderStream, List.cons_append, List.append_assoc,
          List.singleton_append, renderGroup]
        rw [parseBlameFuel]
        rw [if_neg hne]
        simp only [if_neg (Nat.not_lt.2 hg3)]
        obtain ⟨n, hn⟩ := Option.isSome_iff_exists.1 hgi
        simp only [hn]
        rw [takeWhile_block notTab g.meta g.rawContent _ hmetaTab hrawTab]
        obtain ⟨aed, haed⟩ := extractMeta_ok tz g.meta "" "" "" hsafe
        obtain ⟨a1, e1, d1⟩ := aed
        simp only [haed]
        rw [dropWhile_block notTab g.meta g.rawContent _ hmetaTab hrawTab]
        simp only [takeContent, hgtab, if_true]
        have hlenrec : (junk ++ renderStream t).length ≤ fuel := by
          simp only [List.nil_append, renderStream, renderGroup, List.length_append,
            List.length_cons, List.cons_append, List.append_assoc] at hlen ⊢
          omega
        rw [ih junk t (c + 1) hgj.2 ht hlenrec]
        rw [expectedList]
        simp only [expectedRecord, expectedMeta, haed, hn, Option.getD_some]

/-- Helper: one expected record per group. -/
theorem expectedList_length (tz : Int) :
    ∀ gs c, (expectedList tz c gs).length = gs.length := by
  intro gs
  induction gs with
  | nil => intro c; rfl
  | cons p t ih => intro c; simp [expectedList, ih]

/-- Helper: the `k`-th expected record is built from the `k`-th group
alone, at counter `c + k`. -/
theorem expectedList_get (tz : Int) :
    ∀ gs c k (hk : k < (expectedList tz c gs).length) (hk' : k < gs.length),
      (expectedList tz c gs).get ⟨k, hk⟩ = expectedRecord tz (gs.get ⟨k, hk'⟩).1 (c + k) := by
  intro gs
  induction gs with
  | nil => intro c k hk hk'; simp at hk'
  | cons p t ih =>
    intro c k hk hk'
    cases k with
    | zero => simp [expectedList]
    | succ k =>
      have hk2 : k < (expectedList tz (c + 1) t).length := by
        simp only [expectedList, List.length_cons] at hk
        omega
      have hk2' : k < t.length := by
        simp only [List.length_cons] at hk'
        omega
      simp only [expectedList, List.get_cons_succ]
      rw [ih (c + 1) k hk2 hk2']
      congr 1
      omega

/-- C1, confirmed: on any input stream conforming to the §4.3 grammar —
N line-groups with blank or sub-three-token junk lines interleaved — the
Blame Stream Parser succeeds and emits exactly N records, with
`lineStart` running 1, 2, …, N in order and `lineEnd = lineStart`
everywhere; the junk lines produce no record and advance no counter. -/
theorem blame_parser_indexing (tz : Int) (pre : List String)
    (gs : List (BlameGroup × List String)) (hpre : junkOk pre = true)
    (hgs : ∀ p ∈ gs, groupOk p.1 = true ∧ junkOk p.2 = true) :
    ∃ recs, parseBlameLines tz (pre ++ renderStream gs) = .ok recs ∧
      recs.length = gs.length ∧
      ∀ k, (hk : k < recs.length) →
        (recs.get ⟨k, hk⟩).lineStart = k + 1 ∧ (recs.get ⟨k, hk⟩).lineEnd = k + 1 := by
  refine ⟨expectedList tz 1 gs, ?_, expectedList_length tz gs 1, ?_⟩
  · exact parseBlame_render tz (pre ++ renderStream gs).length pre gs 1 hpre hgs le_rfl
  · intro k hk
    have hk' : k < gs.length := by
      rw [← expectedList_length tz gs 1]
      exact hk
    rw [expectedList_get tz gs 1 k hk hk']
    constructor <;> simp [expectedRecord, Nat.add_comm]

/-- C1, witness: a concrete conforming stream of two groups with junk
before, between and after parses to two records numbered 1 and 2. -/
theorem blame_parser_indexing_witness :
    ∃ recs, parseBlameLines 0 ([""] ++ renderStream [(exGroupFull, [""]), (exGroupBare, [])]) =
        .ok recs ∧
      recs.length = [(exGroupFull, [""]), (exGroupBare, [])].length ∧
      ∀ k, (hk : k < recs.length) →
        (recs.get ⟨k, hk⟩).lineStart = k + 1 ∧ (recs.get ⟨k, hk⟩).lineEnd = k + 1 :=
  blame_parser_indexing 0 [""] [(exGroupFull, [""]), (exGroupBare, [])] (by decide) (by decide)

/-- C2, code_bug evaluation: with host zone offset −18000 s (UTC−5,
e.g. `TZ=Etc/GMT+5`), an `author-time 0` group is stamped
`1969-12-31T19:00:00Z` — the local wall-clock rendering of naive
`datetime.fromtimestamp` with a `Z` suffix glued on — while the
specified ISO-8601 UTC timestamp of 0 is `1970-01-01T00:00:00Z`.  The
`generatedAt` metadata on line 438 of the script converts with
`timezone.utc` correctly, so the UTC intent is the script's own. -/
theorem blame_date_local_time_bug :
    parseBlameLines (-18000) ["4f2a 1 1", "author Ann", "author-time 0", "\thi"] =
      .ok [⟨1, 1, "4f2a", "Ann", "", "1969-12-31T19:00:00Z", "hi", 1⟩] ∧
    specUtcDate 0 = "1970-01-01T00:00:00Z" ∧
    ("1969-12-31T19:00:00Z" : String) ≠ specUtcDate 0 := ⟨rfl, rfl, by decide⟩

/-- C3, confirmed: in any conforming stream, a group carrying none of
the three metadata keys yields a record with empty author, email and
date, whatever metadata every other group (earlier ones for the same
sha included) carried: each record uses only its own group's metadata. -/
theorem blame_parser_group_independence (tz : Int) (pre : List String)
    (gs : List (BlameGroup × List String)) (hpre : junkOk pre = true)
    (hgs : ∀ p ∈ gs, groupOk p.1 = true ∧ junkOk p.2 = true)
    (k : Nat) (hk : k < gs.length)
    (hkeys : ∀ m ∈ (gs.get ⟨k, hk⟩).1.meta,
      pyStartsWith m "author " = false ∧ pyStartsWith m "author-mail " = false ∧
      pyStartsWith m "author-time " = false) :
    ∃ recs, parseBlameLines tz (pre ++ renderStream gs) = .ok recs ∧
      ∃ hk' : k < recs.length,
        (recs.get ⟨k, hk'⟩).author = "" ∧ (recs.get ⟨k, hk'⟩).email = "" ∧
        (recs.get ⟨k, hk'⟩).date = "" := by
  refine ⟨expectedList tz 1 gs,
    parseBlame_render tz (pre ++ renderStream gs).length pre gs 1 hpre hgs le_rfl, ?_⟩
  have hk2 : k < (expectedList tz 1 gs).length := by
    rw [expectedList_length]
    exact hk
  refine ⟨hk2, ?_⟩
  rw [expectedList_get tz gs 1 k hk2 hk]
  have hext := extractMeta_keyless tz (gs.get ⟨k, hk⟩).1.meta "" "" "" hkeys
  simp only [List.get_eq_getElem] at hext
  simp [expectedRecord, expectedMeta, hext]

/-- C3, witness: a stream whose first group carries full metadata and
whose second (same sha) carries none: the second record's author, email
and date are empty, not inherited. -/
theorem blame_parser_group_independence_witness :
    ∃ recs, parseBlameLines 0 ([] ++ renderStream [(exGroupFull, []), (exGroupBare, [])]) =
        .ok recs ∧
      ∃ hk' : 1 < recs.length,
        (recs.get ⟨1, hk'⟩).author = "" ∧ (recs.get ⟨1, hk'⟩).email = "" ∧
        (recs.get ⟨1, hk'⟩).date = "" :=
  blame_parser_group_independence 0 [] [(exGroupFull, []), (exGroupBare, [])]
    (by decide) (by decide) 1 (by decide) (by decide)

/-- Helper: a set-add only ever inserts the given non-remote path. -/
theorem addImage_mem (images : List String) (q p : String) (hp : p ∈ addImage images q) :
    p ∈ images ∨ (p = q ∧ isRemoteRef q = false) := by
  unfold addImage at hp
  by_cases hr : isRemoteRef q = true
  · rw [if_pos hr] at hp
    exact Or.inl hp
  · rw [if_neg hr] at hp
    by_cases hc : images.contains q = true
    · rw [if_pos hc] at hp
      exact Or.inl hp
    · rw [if_neg hc] at hp
      rcases List.mem_append.1 hp with h | h
      · exact Or.inl h
      · right
        refine ⟨by simpa using h, by simpa using hr⟩

/-- Helper: a set-add preserves freedom from duplicates. -/
theorem addImage_nodup (images : List String) (q : String) (h : images.Nodup) :
    (addImage images q).Nodup := by
  unfold addImage
  by_cases hr : isRemoteRef q = true
  · rw [if_pos hr]; exact h
  · rw [if_neg hr]
    by_cases hc : images.contains q = true
    · rw [if_pos hc]; exact h
    · rw [if_neg hc]
      rw [List.nodup_append]
      refine ⟨h, List.nodup_singleton q, fun x hx hx2 => ?_⟩
      rw [List.mem_singleton] at hx2
      subst hx2
      exact hc (List.elem_eq_true_of_mem hx)

/-- Helper: the markdown scan only adds non-remote paths to the set. -/
theorem mdScanFuel_mem :
    ∀ fuel l images p, p ∈ mdScanFuel fuel l images →
      p ∈ images ∨ isRemoteRef p = false := by
  intro fuel
  induction fuel with
  | zero => intro l images p hp; exact Or.inl hp
  | succ fuel ih =>
    intro l images p hp
    match l with
    | [] => exact Or.inl hp
    | c :: cs =>
      rw [mdScanFuel] at hp
      split at hp
      next q rest hm =>
        rcases ih rest (addImage images q) p hp with h | h
        · rcases addImage_mem images q p h with h' | h'
          · exact Or.inl h'
          · right; rw [h'.1]; exact h'.2
        · exact Or.inr h
      next hm => exact ih cs images p hp

/-- Helper: the img-tag scan only adds non-remote paths to the set. -/
theorem htmlScanFuel_mem :
    ∀ fuel l images p, p ∈ htmlScanFuel fuel l images →
      p ∈ images ∨ isRemoteRef p = false := by
  intro fuel
  induction fuel with
  | zero => intro l images p hp; exact Or.inl hp
  | succ fuel ih =>
    intro l images p hp
    match l with
    | [] => exact Or.inl hp
    | c :: cs =>
      rw [htmlScanFuel] at hp
      split at hp
      next q rest hm =>
        rcases ih rest (addImage images q) p hp with h | h
        · rcases addImage_mem images q p h with h' | h'
          · exact Or.inl h'
          · right; rw [h'.1]; exact h'.2
        · exact Or.inr h
      next hm => exact ih cs images p hp

/-- Helper: the markdown scan preserves freedom from duplicates. -/
theorem mdScanFuel_nodup :
    ∀ fuel l images, images.Nodup → (mdScanFuel fuel l images).Nodup := by
  intro fuel
  induction fuel with
  | zero => intro l images h; exact h
  | succ fuel ih =>
    intro l images h
    match l with
    | [] => exact h
    | c :: cs =>
      rw [mdScanFuel]
      split
      next q rest hm => exact ih rest _ (addImage_nodup images q h)
      next hm => exact ih cs images h

/-- Helper: the img-tag scan preserves freedom from duplicates. -/
theorem htmlScanFuel_nodup :
    ∀ fuel l images, images.Nodup → (htmlScanFuel fuel l images).Nodup := by
  intro fuel
  induction fuel with
  | zero => intro l images h; exact h
  | succ fuel ih =>
    intro l images h
    match l with
    | [] => exact h
    | c :: cs =>
      rw [htmlScanFuel]
      split
      next q rest hm => exact ih rest _ (addImage_nodup images q h)
      next hm => exact ih cs images h

/-- C5, confirmed: the Resource Reference Extractor returns a
duplicate-free set containing no remote reference (`http://`, `https://`
or protocol-relative `//` prefix), and on the spec's example text it
returns exactly the set holding `a.png` and `b.png`, the remote
reference excluded. -/
theorem extractor_spec :
    (∀ text p, p ∈ extract_image_references text → isRemoteRef p = false) ∧
    (∀ text, (extract_image_references text).Nodup) ∧
    extract_image_references "![x](a.png) and <img src='b.png'/> and ![y](http://ex.com/c.png)" =
      ["a.png", "b.png"] := by
  refine ⟨?_, ?_, by decide⟩
  · intro text p hp
    unfold extract_image_references at hp
    rcases htmlScanFuel_mem _ _ _ p hp with h | h
    · rcases mdScanFuel_mem _ _ _ p h with h' | h'
      · simp at h'
      · exact h'
    · exact h
  · intro text
    exact htmlScanFuel_nodup _ _ _ (mdScanFuel_nodup _ _ _ List.nodup_nil)

/-- C5, witness: the exclusion guarantee applied to a concretely
extracted member. -/
theorem extractor_spec_witness :
    "a.png" ∈ extract_image_references "![x](a.png)" ∧ isRemoteRef "a.png" = false :=
  ⟨by decide, extractor_spec.1 "![x](a.png)" "a.png" (by decide)⟩

/-- Helper: a completed invocation always returns a string. -/
theorem run_completed_ok (o : SubpOutcome) (h : outcomeCompleted o = true) :
    ∃ s, run_git_command o = .ok s := by
  cases o with
  | completed code out err =>
    by_cases hc : code = 0
    · exact ⟨pyStrip out, by simp [run_git_command, hc]⟩
    · exact ⟨"", by simp [run_git_command, hc]⟩
  | oserror m => simp [outcomeCompleted] at h

/-- Helper: a non-zero exit degrades to empty output. -/
theorem run_failed_empty (o : SubpOutcome) (h : outcomeFailed o = true) :
    run_git_command o = .ok "" := by
  cases o with
  | completed code out err =>
    simp only [outcomeFailed, bne_iff_ne, ne_eq] at h
    simp [run_git_command, h]
  | oserror m => simp [outcomeFailed] at h

/-- Helper: the commit loop cannot raise when every file query
completes. -/
theorem allCommitsLoop_ok (diffTree : String → SubpOutcome)
    (hdt : ∀ s, outcomeCompleted (diffTree s) = true) :
    ∀ lines, ∃ cs, allCommitsLoop diffTree lines = .ok cs := by
  intro lines
  induction lines with
  | nil => exact ⟨[], rfl⟩
  | cons line rest ih =>
    rw [allCommitsLoop]
    by_cases hl : line = ""
    · rw [if_pos hl]; exact ih
    · rw [if_neg hl]
      rcases hsp : pySplitMax '|' 4 line with
          _ | ⟨f1, _ | ⟨f2, _ | ⟨f3, _ | ⟨f4, _ | ⟨f5, _ | ⟨f6, t⟩⟩⟩⟩⟩⟩
      · exact ih
      · exact ih
      · exact ih
      · exact ih
      · exact ih
      · obtain ⟨fo, hfo⟩ := run_completed_ok (diffTree f1) (hdt f1)
        obtain ⟨tail, htail⟩ := ih
        exact ⟨{ sha := f1, author := f2, email := f3, date := f4, message := f5,
                 files := (pySplitChar '\n' fo).filter (fun f => f ≠ "") } :: tail,
          by simp only [hfo, htail]⟩
      · exact ih

/-- Helper: `get_all_commits` cannot raise when its invocations
complete. -/
theorem get_all_commits_ok (logOut : SubpOutcome) (diffTree : String → SubpOutcome)
    (hl : outcomeCompleted logOut = true) (hdt : ∀ s, outcomeCompleted (diffTree s) = true) :
    ∃ cs, get_all_commits logOut diffTree = .ok cs := by
  obtain ⟨s, hs⟩ := run_completed_ok logOut hl
  unfold get_all_commits
  simp only [hs]
  by_cases he : s = ""
  · exact ⟨[], by rw [if_pos he]⟩
  · rw [if_neg he]
    exact allCommitsLoop_ok diffTree hdt _

/-- Helper: `get_click_file_commits` cannot raise when its one
invocation completes. -/
theorem get_click_file_commits_ok (logOut : SubpOutcome)
    (hl : outcomeCompleted logOut = true) :
    ∃ cs, get_click_file_commits logOut = .ok cs := by
  obtain ⟨s, hs⟩ := run_completed_ok logOut hl
  unfold get_click_file_commits
  simp only [hs]
  by_cases he : s = ""
  · exact ⟨[], by rw [if_pos he]⟩
  · exact ⟨_, by rw [if_neg he]⟩

/-- Helper: the image-history loop cannot raise when every blob query
completes. -/
theorem imageHistLoop_ok (showOut : String → SubpOutcome)
    (hso : ∀ s, outcomeCompleted (showOut s) = true) :
    ∀ lines, ∃ hist, imageHistLoop showOut lines = .ok hist := by
  intro lines
  induction lines with
  | nil => exact ⟨[], rfl⟩
  | cons line rest ih =>
    rw [imageHistLoop]
    by_cases hl : line = ""
    · rw [if_pos hl]; exact ih
    · rw [if_neg hl]
      rcases hsp : pySplitMax '|' 4 line with
          _ | ⟨f1, _ | ⟨f2, _ | ⟨f3, _ | ⟨f4, _ | ⟨f5, _ | ⟨f6, t⟩⟩⟩⟩⟩⟩
      · exact ih
      · exact ih
      · exact ih
      · exact ih
      · exact ih
      · obtain ⟨so, hso1⟩ := run_completed_ok (showOut f1) (hso f1)
        obtain ⟨tail, htail⟩ := ih
        exact ⟨{ sha := f1, author := f2, email := f3, date := f4, message := f5,
                 size := if so = "" then 0 else pyEncodeLen so } :: tail,
          by simp only [hso1, htail]⟩
      · exact ih

/-- Helper: the correlator cannot raise when its invocations complete. -/
theorem get_image_history_ok (fileOnDisk : Bool) (logOut : SubpOutcome)
    (showOut : String → SubpOutcome) (hl : outcomeCompleted logOut = true)
    (hso : ∀ s, outcomeCompleted (showOut s) = true) :
    ∃ hist, get_image_history fileOnDisk logOut showOut = .ok hist := by
  cases fileOnDisk with
  | false => exact ⟨[], rfl⟩
  | true =>
    obtain ⟨s, hs⟩ := run_completed_ok logOut hl
    unfold get_image_history
    simp only [Bool.not_true, Bool.false_eq_true, if_false, hs]
    by_cases he : s = ""
    · exact ⟨[], by rw [if_pos he]⟩
    · rw [if_neg he]
      exact imageHistLoop_ok showOut hso _

/-- Helper: one copy step cannot raise when the history invocations
complete. -/
theorem copyOne_ok (projectPath assetsDir : String) (env : CopyEnv) (imageRef : String)
    (hil : ∀ p, outcomeCompleted (env.imgLog p) = true)
    (his : ∀ s p, outcomeCompleted (env.imgShow s p) = true) :
    ∃ o, copyOne projectPath assetsDir env imageRef = .ok o := by
  unfold copyOne
  by_cases hs : env.srcOk imageRef = true
  · rw [if_pos hs]
    obtain ⟨hist, hh⟩ := get_image_history_ok
      (env.imgOnDisk (if pyStartsWith projectPath "external-projects" = true then imageRef
        else pyJoin projectPath imageRef))
      (env.imgLog (if pyStartsWith projectPath "external-projects" = true then imageRef
        else pyJoin projectPath imageRef))
      (fun sha => env.imgShow sha (if pyStartsWith projectPath "external-projects" = true
        then imageRef else pyJoin projectPath imageRef))
      (hil _) (fun s => his s _)
    simp only [hh]
    by_cases hcp : env.copyOk imageRef = true
    · exact ⟨_, by rw [if_pos hcp]⟩
    · exact ⟨none, by rw [if_neg hcp]⟩
  · rw [if_neg hs]
    exact ⟨none, rfl⟩

/-- Helper: the copy loop cannot raise when its invocations complete. -/
theorem copyLoop_ok (projectPath assetsDir : String) (env : CopyEnv)
    (hil : ∀ p, outcomeCompleted (env.imgLog p) = true)
    (his : ∀ s p, outcomeCompleted (env.imgShow s p) = true) :
    ∀ refs, ∃ assets, copyLoop projectPath assetsDir env refs = .ok assets := by
  intro refs
  induction refs with
  | nil => exact ⟨[], rfl⟩
  | cons r rs ih =>
    rw [copyLoop]
    obtain ⟨o, ho⟩ := copyOne_ok projectPath assetsDir env r hil his
    obtain ⟨rest, hrest⟩ := ih
    cases o with
    | some a => exact ⟨a :: rest, by rw [ho, hrest]⟩
    | none => exact ⟨rest, by rw [ho, hrest]⟩

/-- Helper: the materializer cannot raise when its invocations
complete. -/
theorem copy_images_ok (projectPath assetsDir : String) (imageRefs : List String)
    (env : CopyEnv) (hil : ∀ p, outcomeCompleted (env.imgLog p) = true)
    (his : ∀ s p, outcomeCompleted (env.imgShow s p) = true) :
    ∃ assets, copy_images_to_assets projectPath assetsDir imageRefs env = .ok assets := by
  unfold copy_images_to_assets
  by_cases he : imageRefs.isEmpty = true
  · exact ⟨[], by rw [if_pos he]⟩
  · rw [if_neg he]
    exact copyLoop_ok projectPath assetsDir env hil his imageRefs

/-- Helper: a project whose invocations all complete and whose blame
stream parses is processed without exception. -/
theorem perProject_ok (e : ProjectEnv) (hc : envCompleted e)
    (hb : ∃ r, get_blame_history e.tz e.clickOnDisk e.blameOut = .ok r) :
    ∃ d, perProject e = .ok d := by
  obtain ⟨hA, hDT, hC, hB, hIL, hIS⟩ := hc
  obtain ⟨ac, hac⟩ := get_all_commits_ok e.logAll e.diffTree hA hDT
  obtain ⟨cc, hcc⟩ := get_click_file_commits_ok e.logClick hC
  obtain ⟨br, hbr⟩ := hb
  obtain ⟨im, him⟩ := copy_images_ok e.projectPath e.assetsDir
    (extract_image_references e.content) e.copyEnv hIL hIS
  exact ⟨{ name := pyBasename e.projectPath, path := e.projectPath, commits := ac,
           clickFile := { commits := cc, blameHistory := br,
                          currentContent := e.content, images := im } },
    by simp only [perProject, hac, hcc, hbr, him]⟩

/-- C8, counterexample: the loop body of `generate_temporal_data` has no
per-project exception handler, so one project whose blame stream makes
`int(parts[1])` raise `ValueError` aborts the whole run: with
`[envBad, envOk]` the result is the propagated exception and the second
project — which on its own processes fine — is never reached. -/
theorem project_exception_aborts_rest :
    processProjects [envBad, envOk] = .error "ValueError" ∧
    exceptIsOk (perProject envOk) = true := ⟨rfl, rfl⟩

/-- C8, amended: failures that surface as non-zero exit codes of the
external tool are caught inside the Command Runner and degrade the
project to empty records without aborting later projects; it is only a
raised exception (an OS-level launch failure, or `ValueError` from a
malformed numeric field in the blame stream) that crosses project
boundaries and aborts the remaining projects.  First part: when every
invocation of every project completes and every blame stream parses,
processing succeeds with one record per project.  Second part: a project
whose three history commands all exit non-zero degrades to an empty
record. -/
theorem project_isolation_amended :
    (∀ es : List ProjectEnv,
       (∀ e ∈ es, envCompleted e ∧
         ∃ r, get_blame_history e.tz e.clickOnDisk e.blameOut = .ok r) →
       ∃ ds, processProjects es = .ok ds ∧ ds.length = es.length) ∧
    (∀ e : ProjectEnv, cmdsAllFail e → e.content = "" →
       ∃ d, perProject e = .ok d ∧ d.commits = [] ∧ d.clickFile.commits = [] ∧
         d.clickFile.blameHistory = [] ∧ d.clickFile.images = []) := by
  constructor
  · intro es
    induction es with
    | nil => intro _; exact ⟨[], rfl, rfl⟩
    | cons e es ih =>
      intro h
      obtain ⟨he, hb⟩ := h e (List.mem_cons_self _ _)
      obtain ⟨d, hd⟩ := perProject_ok e he hb
      obtain ⟨ds, hds, hlen⟩ := ih (fun q hq => h q (List.mem_cons_of_mem _ hq))
      refine ⟨d :: ds, ?_, by simp [hlen]⟩
      rw [processProjects, hd, hds]
  · intro e hf hcontent
    obtain ⟨hA, hC, hB⟩ := hf
    have hac : get_all_commits e.logAll e.diffTree = .ok [] := by
      unfold get_all_commits
      rw [run_failed_empty e.logAll hA]
      rfl
    have hcc : get_click_file_commits e.logClick = .ok [] := by
      unfold get_click_file_commits
      rw [run_failed_empty e.logClick hC]
      rfl
    have hbh : get_blame_history e.tz e.clickOnDisk e.blameOut = .ok [] := by
      unfold get_blame_history
      cases hcd : e.clickOnDisk with
      | false => rfl
      | true =>
        simp only [Bool.not_true, Bool.false_eq_true, if_false,
          run_failed_empty e.blameOut hB]
        rfl
    have hex : extract_image_references e.content = [] := by
      rw [hcontent]
      rfl
    have him : copy_images_to_assets e.projectPath e.assetsDir
        (extract_image_references e.content) e.copyEnv = .ok [] := by
      rw [hex]
      rfl
    exact ⟨{ name := pyBasename e.projectPath, path := e.projectPath, commits := [],
             clickFile := { commits := [], blameHistory := [],
                            currentContent := e.content, images := [] } },
      by simp only [perProject, hac, hcc, hbh, him], rfl, rfl, rfl, rfl⟩

/-- C8, witness: the amended isolation law applied to the one-project
list holding the healthy degraded project. -/
theorem project_isolation_amended_witness :
    ∃ ds, processProjects [envOk] = .ok ds ∧ ds.length = [envOk].length :=
  project_isolation_amended.1 [envOk] (by
    intro e he
    rw [List.mem_singleton] at he
    subst he
    exact ⟨⟨rfl, fun s => rfl, rfl, rfl, fun p => rfl, fun s p => rfl⟩, ⟨[], rfl⟩⟩)
